import Mathlib

/-!
Verification development for the NitroGen input core
(nitrogen/input/keymap.py, keyboard_mouse.py, keyboard_mouse_state.py,
raw_input.py).

The Python code is shallowly embedded: pure functions become Lean
functions, the stateful controller / sampler / raw-input hook become
explicit state passing, and dynamically typed Python values are given an
explicit universe of values (strings, integers, mappings, sequences).
Machine integers of the platform structures are modelled as unbounded
integers except where the code itself truncates (c_short below).
Physical event emission (SendInput / pyautogui dispatch) is modelled as
a list of logical events; the OS level I/O is outside the model.

Python sets are modelled as duplicate-free lists in first-insertion
order; Python iterates a set in an unspecified order, so this is a
determinization, and every ordering statement proved about events drawn
from one set holds for any enumeration order of that set.
-/

namespace Nitrogen

/-- VK_CODE table from nitrogen/input/keymap.py: canonical key name to
virtual key code. -/
def VK_CODE : List (String × Nat) := [
  ("backspace", 0x08), ("tab", 0x09), ("enter", 0x0D), ("shift", 0x10),
  ("ctrl", 0x11), ("alt", 0x12), ("pause", 0x13), ("capslock", 0x14),
  ("esc", 0x1B), ("space", 0x20), ("pageup", 0x21), ("pagedown", 0x22),
  ("end", 0x23), ("home", 0x24), ("left", 0x25), ("up", 0x26),
  ("right", 0x27), ("down", 0x28), ("insert", 0x2D), ("delete", 0x2E),
  ("0", 0x30), ("1", 0x31), ("2", 0x32), ("3", 0x33), ("4", 0x34),
  ("5", 0x35), ("6", 0x36), ("7", 0x37), ("8", 0x38), ("9", 0x39),
  ("a", 0x41), ("b", 0x42), ("c", 0x43), ("d", 0x44), ("e", 0x45),
  ("f", 0x46), ("g", 0x47), ("h", 0x48), ("i", 0x49), ("j", 0x4A),
  ("k", 0x4B), ("l", 0x4C), ("m", 0x4D), ("n", 0x4E), ("o", 0x4F),
  ("p", 0x50), ("q", 0x51), ("r", 0x52), ("s", 0x53), ("t", 0x54),
  ("u", 0x55), ("v", 0x56), ("w", 0x57), ("x", 0x58), ("y", 0x59),
  ("z", 0x5A), ("lshift", 0xA0), ("rshift", 0xA1), ("lctrl", 0xA2),
  ("rctrl", 0xA3), ("lalt", 0xA4), ("ralt", 0xA5), ("f1", 0x70),
  ("f2", 0x71), ("f3", 0x72), ("f4", 0x73), ("f5", 0x74), ("f6", 0x75),
  ("f7", 0x76), ("f8", 0x77), ("f9", 0x78), ("f10", 0x79),
  ("f11", 0x7A), ("f12", 0x7B)]

/-- KEY_ALIASES table from keymap.py. -/
def KEY_ALIASES : List (String × String) := [
  ("escape", "esc"), ("return", "enter"), ("control", "ctrl"),
  ("lcontrol", "lctrl"), ("rcontrol", "rctrl"), ("option", "alt")]

/-- EXTENDED_KEYS set from keymap.py. -/
def EXTENDED_KEYS : List String := [
  "up", "down", "left", "right", "insert", "delete", "home", "end",
  "pageup", "pagedown", "rctrl", "ralt"]

/-- MOUSE_BUTTON_FLAGS table from keymap.py: button name to
(down flag, up flag, auxiliary data). -/
def MOUSE_BUTTON_FLAGS : List (String × (Nat × Nat × Nat)) := [
  ("left", (0x0002, 0x0004, 0)), ("right", (0x0008, 0x0010, 0)),
  ("middle", (0x0020, 0x0040, 0)), ("x1", (0x0080, 0x0100, 0x0001)),
  ("x2", (0x0080, 0x0100, 0x0002))]

/-- MOUSE_BUTTON_VK table from keymap.py: button name to the virtual key
code used for state polling. -/
def MOUSE_BUTTON_VK : List (String × Nat) := [
  ("left", 0x01), ("right", 0x02), ("middle", 0x04),
  ("x1", 0x05), ("x2", 0x06)]

/-- Whitespace test modelling the characters Python str.strip removes
(for the ASCII names this system handles). -/
def isSpaceChar (c : Char) : Bool :=
  c = ' ' ∨ c = '\t' ∨ c = '\n' ∨ c = '\r'

/-- Model of Python str.strip: drop whitespace from both ends. -/
def pyStrip (s : String) : String :=
  ⟨((s.data.dropWhile isSpaceChar).reverse.dropWhile isSpaceChar).reverse⟩

/-- Lowercase one character (ASCII range, as the key names here are). -/
def lowerChar (c : Char) : Char :=
  if 'A' ≤ c ∧ c ≤ 'Z' then Char.ofNat (c.toNat + 32) else c

/-- Model of Python str.lower for the ASCII names this system handles. -/
def pyLower (s : String) : String := ⟨s.data.map lowerChar⟩

/-- normalize_key from keymap.py: strip, lowercase, then alias-resolve;
unknown names pass through unchanged. -/
def normalize_key (name : String) : String :=
  let key := pyLower (pyStrip name)
  (KEY_ALIASES.lookup key).getD key

/-- normalize_mouse_button from keymap.py: strip, lowercase, resolve the
mouse1..mouse5 / button1..button5 aliases; others pass through. -/
def normalize_mouse_button (name : String) : String :=
  let button := pyLower (pyStrip name)
  if button = "mouse1" ∨ button = "button1" then "left"
  else if button = "mouse2" ∨ button = "button2" then "right"
  else if button = "mouse3" ∨ button = "button3" then "middle"
  else if button = "mouse4" ∨ button = "button4" then "x1"
  else if button = "mouse5" ∨ button = "button5" then "x2"
  else button

/-- Membership test for the Python expression `name in VK_CODE`. -/
def isKeyName (k : String) : Bool := (VK_CODE.lookup k).isSome

/-- Membership test for the Python expression `name in MOUSE_BUTTON_FLAGS`. -/
def isButtonName (b : String) : Bool := (MOUSE_BUTTON_FLAGS.lookup b).isSome

/-- Membership test for the Python expression `name in MOUSE_BUTTON_VK`. -/
def isButtonVkName (b : String) : Bool := (MOUSE_BUTTON_VK.lookup b).isSome

/-- Insertion into a Python set modelled as a duplicate-free list in
first-insertion order. -/
def pyInsert (l : List String) (x : String) : List String :=
  if x ∈ l then l else l ++ [x]

/-- Python set difference a - b, on the list model: keep the elements of
a that are not in b, preserving order. -/
def pyDiff (a b : List String) : List String :=
  a.filter (fun x => decide (x ∉ b))

/-- An element of a Python collection supplied inside an action: either a
string (a key or button name) or a number. Python numerics in actions are
modelled as integers, which covers every value the specification and the
callers exercise. -/
inductive ActionItem
  | str (s : String)
  | num (x : Int)
deriving DecidableEq

/-- Model of the Python conversion float(value) applied to an action item,
returning Option.none where Python raises. Numeric strings are modelled
via integer parsing; non-numeric strings fail to convert, as in Python. -/
def pyFloat : ActionItem → Option Int
  | .num x => some x
  | .str s => s.toInt?

/-- Model of the Python conversion int(value) applied to an action item,
returning Option.none where Python raises. -/
def pyInt : ActionItem → Option Int
  | .num x => some x
  | .str s => s.toInt?

/-- The shapes a keys / mouse_buttons field of an action can take: a
name-to-truthy mapping, an ordered collection (list or tuple; a Python
set would iterate in unspecified order and is not modelled separately),
or any other value (no length, not iterable in the relevant sense). -/
inductive RawField
  | mapping (entries : List (ActionItem × Bool))
  | coll (items : List ActionItem)
  | other
deriving DecidableEq

/-- The shapes a mouse_dx / mouse_dy / mouse_wheel field can take. -/
inductive ActionValue
  | none
  | num (x : Int)
  | str (s : String)
  | seq (items : List ActionItem)
deriving DecidableEq

/-- An action consumed by KeyboardMouseController.step. A field absent
from the Python mapping is represented by the same default the code
supplies via .get. -/
structure Action where
  keys : RawField
  mouse_buttons : RawField
  mouse_dx : ActionValue
  mouse_dy : ActionValue
  mouse_wheel : ActionValue
deriving DecidableEq

/-- The action with every field absent: step uses [] for the key and
button fields and 0 for the numeric fields. -/
def emptyAction : Action :=
  { keys := .coll [], mouse_buttons := .coll [],
    mouse_dx := .none, mouse_dy := .none, mouse_wheel := .none }

/-- _value_from_action from keyboard_mouse.py: None yields 0; a sized
non-string sequence is read at index 0 (an empty sequence or a
non-coercible head falls through, and int() of the sequence itself then
raises, yielding 0); otherwise int coercion with 0 on failure. -/
def _value_from_action : ActionValue → Int
  | .none => 0
  | .num x => x
  | .str s => (s.toInt?).getD 0
  | .seq items =>
    match items with
    | [] => 0
    | it :: _ => (pyInt it).getD 0

/-- The loop body of _vector_to_names: walk zip(names, raw); a value on
which float() raises aborts the whole call (Python propagates the
exception to the except handler, which returns None). -/
def vectorSelect : List String → List ActionItem → List String →
    Option (List String)
  | [], _, acc => some acc
  | _ :: _, [], acc => some acc
  | n :: ns, v :: vs, acc =>
    match pyFloat v with
    | Option.none => Option.none
    | some x => vectorSelect ns vs (if x > 0 then pyInsert acc n else acc)

/-- _vector_to_names from keyboard_mouse.py, for a sized sequence raw.
The caller handles the unsized case (the hasattr check) by not reaching
the vector path at all. -/
def _vector_to_names (items : List ActionItem) (names : List String) :
    Option (List String) :=
  if items.length = names.length then vectorSelect names items []
  else Option.none

/-- The set comprehension / set() coercion at the top of _extract_keys
and _extract_buttons: a mapping keeps keys with truthy values, a
collection keeps its items, anything else yields the empty set. -/
def itemsOf : RawField → List ActionItem
  | .mapping es => (es.filter (fun p => p.2)).map (fun p => p.1)
  | .coll items => items
  | .other => []

/-- The normalization loop of _extract_keys, one iteration per item:
skip non-strings, normalize, keep only names present in VK_CODE. -/
def normalizeKeysGo : List ActionItem → List String → List String
  | [], acc => acc
  | .str s :: rest, acc =>
    let name := normalize_key s
    normalizeKeysGo rest (if isKeyName name then pyInsert acc name else acc)
  | .num _ :: rest, acc => normalizeKeysGo rest acc

/-- The normalization loop of _extract_keys. -/
def normalizeKeysSet (items : List ActionItem) : List String :=
  normalizeKeysGo items []

/-- The normalization loop of _extract_buttons, one iteration per item. -/
def normalizeButtonsGo : List ActionItem → List String → List String
  | [], acc => acc
  | .str s :: rest, acc =>
    let name := normalize_mouse_button s
    normalizeButtonsGo rest
      (if isButtonName name then pyInsert acc name else acc)
  | .num _ :: rest, acc => normalizeButtonsGo rest acc

/-- The normalization loop of _extract_buttons. -/
def normalizeButtonsSet (items : List ActionItem) : List String :=
  normalizeButtonsGo items []

/-- Python truthiness of the optional whitelist: None and the empty list
are falsy. -/
def pyTruthyList : Option (List String) → Bool
  | Option.none => false
  | some l => !l.isEmpty

/-- _extract_keys from keyboard_mouse.py. The vector path is attempted
when the whitelist is truthy and raw is not a mapping; for a value with
no length (RawField.other) _vector_to_names returns None in Python, so
both cases fall through to the normalization loop. -/
def _extract_keys (key_list : Option (List String)) (raw : RawField) :
    List String :=
  let vec : Option (List String) :=
    if pyTruthyList key_list then
      match key_list, raw with
      | some kl, .coll items => _vector_to_names items kl
      | _, _ => Option.none
    else Option.none
  match vec with
  | some v => v
  | Option.none => normalizeKeysSet (itemsOf raw)

/-- _extract_buttons from keyboard_mouse.py. -/
def _extract_buttons (mouse_button_list : Option (List String))
    (raw : RawField) : List String :=
  let vec : Option (List String) :=
    if pyTruthyList mouse_button_list then
      match mouse_button_list, raw with
      | some bl, .coll items => _vector_to_names items bl
      | _, _ => Option.none
    else Option.none
  match vec with
  | some v => v
  | Option.none => normalizeButtonsSet (itemsOf raw)

/-- A logical input event emitted by the controller. Dispatch through
SendInput or pyautogui is I/O and outside the model; the event records
what the dispatch helpers are asked to synthesize. -/
inductive Event
  | keyUp (k : String)
  | keyDown (k : String)
  | buttonUp (b : String)
  | buttonDown (b : String)
  | move (dx dy : Int)
  | wheel (amount : Int)
deriving DecidableEq

/-- _key_event from keyboard_mouse.py, as the list of logical events it
synthesizes: on the native path an unknown key (VK_CODE.get returning
None) is silently dropped. -/
def _key_event (k : String) (is_down : Bool) : List Event :=
  if isKeyName k then [if is_down then Event.keyDown k else Event.keyUp k]
  else []

/-- _mouse_button_event from keyboard_mouse.py, as the logical event it
synthesizes. The Python code indexes MOUSE_BUTTON_FLAGS[button], which
always succeeds for the names its callers store (extraction filters to
that table); the embedding emits the logical event. -/
def _mouse_button_event (b : String) (is_down : Bool) : List Event :=
  [if is_down then Event.buttonDown b else Event.buttonUp b]

/-- Emit one group of events, one helper call per element of a held or
desired set (in the determinized iteration order of the list model). -/
def emitEach (s : List String) (f : String → List Event) : List Event :=
  (s.map f).flatten

/-- KeyboardMouseController state from keyboard_mouse.py. The backend
selection and its availability probing are platform facts outside the
model; event dispatch is modelled at the logical event level. -/
structure KeyboardMouseController where
  dry_run : Bool
  key_list : Option (List String)
  mouse_button_list : Option (List String)
  pressed_keys : List String
  pressed_mouse_buttons : List String
deriving DecidableEq

/-- KeyboardMouseController.__init__: normalize the optional whitelists
and filter them to the identifier tables; a falsy (absent or empty)
whitelist becomes None; pressed sets start empty. -/
def mkController (dry_run : Bool) (key_list : Option (List String))
    (mouse_buttons : Option (List String)) : KeyboardMouseController :=
  let kl : Option (List String) :=
    match key_list with
    | Option.none => Option.none
    | some l =>
      if l.isEmpty then Option.none
      else some ((l.map normalize_key).filter isKeyName)
  let bl : Option (List String) :=
    match mouse_buttons with
    | Option.none => Option.none
    | some l =>
      if l.isEmpty then Option.none
      else some ((l.map normalize_mouse_button).filter isButtonName)
  { dry_run := dry_run, key_list := kl, mouse_button_list := bl,
    pressed_keys := [], pressed_mouse_buttons := [] }

/-- KeyboardMouseController.step: extract desired sets and deltas, diff
against the held state, emit (unless dry-run) key releases, key presses,
button releases, button presses, then move if dx or dy is nonzero, then
wheel if nonzero, and finally replace the held state with the desired
sets unconditionally. -/
def step (c : KeyboardMouseController) (a : Action) :
    KeyboardMouseController × List Event :=
  let desired_keys := _extract_keys c.key_list a.keys
  let desired_buttons := _extract_buttons c.mouse_button_list a.mouse_buttons
  let dx := _value_from_action a.mouse_dx
  let dy := _value_from_action a.mouse_dy
  let wheel := _value_from_action a.mouse_wheel
  let keys_to_release := pyDiff c.pressed_keys desired_keys
  let keys_to_press := pyDiff desired_keys c.pressed_keys
  let buttons_to_release := pyDiff c.pressed_mouse_buttons desired_buttons
  let buttons_to_press := pyDiff desired_buttons c.pressed_mouse_buttons
  let events : List Event :=
    if c.dry_run then []
    else
      emitEach keys_to_release (fun k => _key_event k false) ++
      emitEach keys_to_press (fun k => _key_event k true) ++
      emitEach buttons_to_release (fun b => _mouse_button_event b false) ++
      emitEach buttons_to_press (fun b => _mouse_button_event b true) ++
      (if dx ≠ 0 ∨ dy ≠ 0 then [Event.move dx dy] else []) ++
      (if wheel ≠ 0 then [Event.wheel wheel] else [])
  ({ c with pressed_keys := desired_keys,
            pressed_mouse_buttons := desired_buttons }, events)

/-- KeyboardMouseController.reset: release every held key, then every
held button (unless dry-run), then clear both sets unconditionally. -/
def reset (c : KeyboardMouseController) :
    KeyboardMouseController × List Event :=
  let events : List Event :=
    if c.dry_run then []
    else
      emitEach c.pressed_keys (fun k => _key_event k false) ++
      emitEach c.pressed_mouse_buttons (fun b => _mouse_button_event b false)
  ({ c with pressed_keys := [], pressed_mouse_buttons := [] }, events)

/-- Run a scripted sequence of step calls, recording after each call the
controller state and the events that call emitted. -/
def runSteps (c : KeyboardMouseController) :
    List Action → List (KeyboardMouseController × List Event)
  | [] => []
  | a :: as =>
    let r := step c a
    r :: runSteps r.1 as

/-- A controller operation: one step call or one reset call. -/
inductive CtrlOp
  | doStep (a : Action)
  | doReset

/-- Run a sequence of step / reset operations, returning the final
controller state. -/
def runOps (c : KeyboardMouseController) : List CtrlOp →
    KeyboardMouseController
  | [] => c
  | .doStep a :: ops => runOps (step c a).1 ops
  | .doReset :: ops => runOps (reset c).1 ops

/-- MOUSE_MOVE_ABSOLUTE flag from raw_input.py. -/
def MOUSE_MOVE_ABSOLUTE : Nat := 0x0001

/-- RI_MOUSE_WHEEL flag from raw_input.py. -/
def RI_MOUSE_WHEEL : Nat := 0x0400

/-- Reinterpret the low 16 bits of a nonnegative value as a signed short,
modelling ctypes.c_short(v).value. -/
def c_short (v : Nat) : Int :=
  let w := v % 65536
  if w < 32768 then (w : Int) else (w : Int) - 65536

/-- The mouse payload of a successfully parsed WM_INPUT raw event
(RAWMOUSE fields used by _handle_raw_input). lLastX / lLastY are signed
longs; usButtonData is an unsigned short. -/
structure RawMouseEvent where
  usFlags : Nat
  usButtonFlags : Nat
  usButtonData : Nat
  lLastX : Int
  lLastY : Int
deriving DecidableEq

/-- The mutable state of RawMouseHook that the message handlers and
poll() touch: the accumulator triple and the last absolute sample. The
thread and window bookkeeping is platform I/O outside the model. -/
structure RawMouseHook where
  dx : Int
  dy : Int
  wheel : Int
  last_abs : Option (Int × Int)
deriving DecidableEq

/-- RawMouseHook.__init__: zero accumulator, no absolute sample yet. -/
def initHook : RawMouseHook :=
  { dx := 0, dy := 0, wheel := 0, last_abs := Option.none }

/-- RawMouseHook._handle_raw_input, after the GetRawInputData parsing
has succeeded and the event is a mouse event (failed reads and
non-mouse events return without touching state, which the message model
below represents separately): start from the reported lLastX / lLastY;
in absolute mode, if a previous absolute sample exists the delta is the
coordinate difference, and the new absolute sample is stored; a wheel
flag contributes the signed usButtonData; the results are added to the
accumulator. -/
def _handle_raw_input (h : RawMouseHook) (e : RawMouseEvent) :
    RawMouseHook :=
  let isAbs := (e.usFlags &&& MOUSE_MOVE_ABSOLUTE) != 0
  let dx : Int :=
    if isAbs then
      match h.last_abs with
      | some p => e.lLastX - p.1
      | Option.none => e.lLastX
    else e.lLastX
  let dy : Int :=
    if isAbs then
      match h.last_abs with
      | some p => e.lLastY - p.2
      | Option.none => e.lLastY
    else e.lLastY
  let last_abs :=
    if isAbs then some (e.lLastX, e.lLastY) else h.last_abs
  let wh : Int :=
    if (e.usButtonFlags &&& RI_MOUSE_WHEEL) != 0 then c_short e.usButtonData
    else 0
  { dx := h.dx + dx, dy := h.dy + dy, wheel := h.wheel + wh,
    last_abs := last_abs }

/-- A message reaching RawMouseHook._handle_message that can affect the
accumulator: a parsed WM_INPUT mouse event, a WM_MOUSEWHEEL message
carrying its wparam, or any other message (including WM_INPUT reads
that fail or are not mouse events), which leaves the state unchanged. -/
inductive HookMsg
  | rawInput (e : RawMouseEvent)
  | mouseWheel (wparam : Nat)
  | other
deriving DecidableEq

/-- RawMouseHook._handle_message restricted to its effect on the
accumulator state: WM_INPUT delegates to _handle_raw_input, and
WM_MOUSEWHEEL adds the signed high word of wparam to the wheel. -/
def _handle_message (h : RawMouseHook) (m : HookMsg) : RawMouseHook :=
  match m with
  | .rawInput e => _handle_raw_input h e
  | .mouseWheel wparam =>
    { h with wheel := h.wheel + c_short ((wparam >>> 16) &&& 0xFFFF) }
  | .other => h

/-- RawMouseHook.poll: read the accumulator triple and reset it to
zeros (the last absolute sample is kept). -/
def poll (h : RawMouseHook) : (Int × Int × Int) × RawMouseHook :=
  ((h.dx, h.dy, h.wheel), { h with dx := 0, dy := 0, wheel := 0 })

/-- Process a sequence of messages delivered to the hook thread. -/
def processMsgs (h : RawMouseHook) (ms : List HookMsg) : RawMouseHook :=
  ms.foldl _handle_message h

/-- The environment one KeyboardMouseState.sample call observes: the
GetAsyncKeyState oracle, the cursor position, the raw-capture poll
outcome (Option.none models poll() raising), and the wall clock. -/
structure Env where
  asyncKeyState : Nat → Bool
  cursorPos : Int × Int
  pollResult : Option (Int × Int × Int)
  now : Int

/-- The snapshot dictionary KeyboardMouseState.sample returns. -/
structure Snapshot where
  timestamp : Int
  keys : List String
  keys_vec : List Nat
  mouse_buttons : List String
  mouse_buttons_vec : List Nat
  mouse_dx : Int
  mouse_dy : Int
  mouse_wheel : Int
  mouse_pos : Int × Int
deriving DecidableEq

/-- KeyboardMouseState state from keyboard_mouse_state.py: the
configured (normalized, deduplicated, filtered) key and button lists,
the stored previous cursor position, and whether a raw-capture handle
is configured. -/
structure KeyboardMouseState where
  keys : List String
  mouse_buttons : List String
  prev_pos : Option (Int × Int)
  raw_mouse : Bool
deriving DecidableEq

/-- The configured-keys loop of KeyboardMouseState.__init__: normalize
each name, append it if it is in VK_CODE and not already present. -/
def initKeysGo : List String → List String → List String
  | [], acc => acc
  | k :: ks, acc =>
    let norm := normalize_key k
    initKeysGo ks (if isKeyName norm ∧ norm ∉ acc then acc ++ [norm] else acc)

/-- The configured-buttons loop of KeyboardMouseState.__init__. -/
def initButtonsGo : List String → List String → List String
  | [], acc => acc
  | b :: bs, acc =>
    let norm := normalize_mouse_button b
    initButtonsGo bs
      (if isButtonVkName norm ∧ norm ∉ acc then acc ++ [norm] else acc)

/-- KeyboardMouseState.__init__: normalize each configured name, keep it
if it is in the identifier table and not already present. -/
def initState (keys mouse_buttons : List String) (raw_mouse : Bool) :
    KeyboardMouseState :=
  { keys := initKeysGo keys [],
    mouse_buttons := initButtonsGo mouse_buttons [],
    prev_pos := Option.none, raw_mouse := raw_mouse }

/-- KeyboardMouseState._cursor_delta: difference against the stored
previous position (zero if none), store the new position, wheel 0. -/
def _cursor_delta (s : KeyboardMouseState) (x y : Int) :
    KeyboardMouseState × (Int × Int × Int) :=
  match s.prev_pos with
  | Option.none => ({ s with prev_pos := some (x, y) }, (0, 0, 0))
  | some p => ({ s with prev_pos := some (x, y) }, (x - p.1, y - p.2, 0))

/-- The virtual key code used to poll a configured key. Construction
guarantees the name is in VK_CODE, so the default is never taken on
reachable states (Python indexes the dict directly). -/
def vkOfKey (k : String) : Nat := (VK_CODE.lookup k).getD 0

/-- The virtual key code used to poll a configured button. -/
def vkOfButton (b : String) : Nat := (MOUSE_BUTTON_VK.lookup b).getD 0

/-- KeyboardMouseState.sample: poll each configured key and button,
read the cursor, then obtain the motion triple from the raw-capture
handle if one is configured and its poll succeeds, falling back to
cursor differencing when it raises or when no handle is configured. -/
def sample (s : KeyboardMouseState) (env : Env) :
    KeyboardMouseState × Snapshot :=
  let pressedK := s.keys.filter (fun k => env.asyncKeyState (vkOfKey k))
  let keysVec := s.keys.map
    (fun k => if env.asyncKeyState (vkOfKey k) then 1 else 0)
  let pressedB := s.mouse_buttons.filter
    (fun b => env.asyncKeyState (vkOfButton b))
  let buttonsVec := s.mouse_buttons.map
    (fun b => if env.asyncKeyState (vkOfButton b) then 1 else 0)
  let x := env.cursorPos.1
  let y := env.cursorPos.2
  let r : KeyboardMouseState × (Int × Int × Int) :=
    if s.raw_mouse then
      match env.pollResult with
      | some d => (s, d)
      | Option.none => _cursor_delta s x y
    else _cursor_delta s x y
  (r.1,
   { timestamp := env.now, keys := pressedK, keys_vec := keysVec,
     mouse_buttons := pressedB, mouse_buttons_vec := buttonsVec,
     mouse_dx := r.2.1, mouse_dy := r.2.2.1, mouse_wheel := r.2.2.2,
     mouse_pos := (x, y) })

/-- Run a sequence of sample calls, collecting the snapshots. -/
def runSamples (s : KeyboardMouseState) :
    List Env → KeyboardMouseState × List Snapshot
  | [] => (s, [])
  | e :: es =>
    let r := sample s e
    let rest := runSamples r.1 es
    (rest.1, r.2 :: rest.2)

/-- Event classification: presses. -/
def isPress : Event → Bool
  | .keyDown _ => true
  | .buttonDown _ => true
  | _ => false

/-- Event classification: releases. -/
def isRelease : Event → Bool
  | .keyUp _ => true
  | .buttonUp _ => true
  | _ => false

/-- Event classification: keyboard events. -/
def isKeyEvent : Event → Bool
  | .keyUp _ => true
  | .keyDown _ => true
  | _ => false

/-- Event classification: mouse button events. -/
def isButtonEvent : Event → Bool
  | .buttonUp _ => true
  | .buttonDown _ => true
  | _ => false

/-- Event classification: move events. -/
def isMoveEvent : Event → Bool
  | .move _ _ => true
  | _ => false

/-- Event classification: wheel events. -/
def isWheelEvent : Event → Bool
  | .wheel _ => true
  | _ => false

/-- The emission phase of an event inside one step call, as claimed by
the specification ordering. -/
def phase : Event → Nat
  | .keyUp _ => 0
  | .keyDown _ => 1
  | .buttonUp _ => 2
  | .buttonDown _ => 3
  | .move _ _ => 4
  | .wheel _ => 5

/-- The ordering property the specification claims of one step call:
no press is emitted before any release (of either device class). -/
def releasesBeforePresses (es : List Event) : Prop :=
  es.Pairwise (fun a b => ¬(isPress a = true ∧ isRelease b = true))

/-- Modelled from the spec: positional vector decoding. Given the
whitelist and an equal-length numeric vector, index i is selected iff
its numeric value is strictly greater than 0; the decoded set is the
set of whitelist names at selected indices. -/
def positionalDecodeGo : List (String × ActionItem) → List String →
    List String
  | [], acc => acc
  | p :: ps, acc =>
    match p.2 with
    | .num x => positionalDecodeGo ps (if 0 < x then pyInsert acc p.1 else acc)
    | .str _ => positionalDecodeGo ps acc

/-- Modelled from the spec: the selected-name set of positional vector
decoding, walking the whitelist and the vector in parallel. -/
def positionalDecode (names : List String) (values : List ActionItem) :
    List String :=
  positionalDecodeGo (names.zip values) []

/-- Numeric action items (the shape the positional decoding claims are
about). -/
def isNumItem : ActionItem → Bool
  | .num _ => true
  | .str _ => false

/-- The delta one message contributes to the accumulator, given the
stored absolute sample at the time it is handled. -/
def msgDelta (la : Option (Int × Int)) : HookMsg → Int × Int × Int
  | .rawInput e =>
    let isAbs := (e.usFlags &&& MOUSE_MOVE_ABSOLUTE) != 0
    let dx : Int :=
      if isAbs then
        match la with
        | some p => e.lLastX - p.1
        | Option.none => e.lLastX
      else e.lLastX
    let dy : Int :=
      if isAbs then
        match la with
        | some p => e.lLastY - p.2
        | Option.none => e.lLastY
      else e.lLastY
    let wh : Int :=
      if (e.usButtonFlags &&& RI_MOUSE_WHEEL) != 0 then c_short e.usButtonData
      else 0
    (dx, dy, wh)
  | .mouseWheel wparam => (0, 0, c_short ((wparam >>> 16) &&& 0xFFFF))
  | .other => (0, 0, 0)

/-- The stored absolute sample after one message is handled. -/
def msgAbs (la : Option (Int × Int)) : HookMsg → Option (Int × Int)
  | .rawInput e =>
    if (e.usFlags &&& MOUSE_MOVE_ABSOLUTE) != 0 then some (e.lLastX, e.lLastY)
    else la
  | .mouseWheel _ => la
  | .other => la

/-- The componentwise sum of the deltas a message sequence contributes,
threading the stored absolute sample through the sequence. -/
def sumDeltas (la : Option (Int × Int)) : List HookMsg → Int × Int × Int
  | [] => (0, 0, 0)
  | m :: ms =>
    let d := msgDelta la m
    let r := sumDeltas (msgAbs la m) ms
    (d.1 + r.1, d.2.1 + r.2.1, d.2.2 + r.2.2)

/-- Concrete sampler state fixture (capture handle configured) used by
closed witness statements. -/
def sampFixRaw : KeyboardMouseState :=
  { keys := [], mouse_buttons := [], prev_pos := some (5, 7),
    raw_mouse := true }

/-- Concrete sampler state fixture (no capture handle). -/
def sampFixCur : KeyboardMouseState :=
  { keys := [], mouse_buttons := [], prev_pos := some (5, 7),
    raw_mouse := false }

/-- Concrete environment fixture in which poll() raises. -/
def envFail : Env :=
  { asyncKeyState := fun _ => false, cursorPos := (10, 20),
    pollResult := Option.none, now := 0 }

/-- Concrete environment fixture in which poll() returns (1, 2, 3). -/
def envOk : Env :=
  { asyncKeyState := fun _ => false, cursorPos := (30, 40),
    pollResult := some (1, 2, 3), now := 1 }

end Nitrogen

namespace Nitrogen

/-! Helper lemmas shared by the claim theorems. -/

theorem mem_pyInsert {l : List String} {x y : String} :
    y ∈ pyInsert l x ↔ y ∈ l ∨ y = x := by
  unfold pyInsert
  split
  · rename_i hx
    constructor
    · exact fun h => Or.inl h
    · rintro (h | rfl)
      · exact h
      · exact hx
  · simp

theorem nodup_pyInsert {l : List String} {x : String} (h : l.Nodup) :
    (pyInsert l x).Nodup := by
  unfold pyInsert
  split
  · exact h
  · rename_i hx
    simpa using List.Nodup.append h (List.nodup_singleton x)
      (by simpa using fun hmem => hx hmem)

theorem pyDiff_self (l : List String) : pyDiff l l = [] := by
  unfold pyDiff
  exact List.filter_eq_nil_iff.mpr (fun a ha => by simp [ha])

theorem pyDiff_nil (l : List String) : pyDiff l [] = l := by
  unfold pyDiff
  exact List.filter_eq_self.mpr (fun a _ => by simp)

theorem emitEach_nil (f : String → List Event) : emitEach [] f = [] := rfl

theorem mem_emitEach {s : List String} {f : String → List Event}
    {e : Event} : e ∈ emitEach s f ↔ ∃ k ∈ s, e ∈ f k := by
  unfold emitEach
  simp [List.mem_flatten]

theorem mem_key_event_false {k : String} {e : Event}
    (h : e ∈ _key_event k false) : e = Event.keyUp k := by
  unfold _key_event at h
  split at h <;> simp_all

theorem mem_key_event_true {k : String} {e : Event}
    (h : e ∈ _key_event k true) : e = Event.keyDown k := by
  unfold _key_event at h
  split at h <;> simp_all

theorem mem_button_event_false {b : String} {e : Event}
    (h : e ∈ _mouse_button_event b false) : e = Event.buttonUp b := by
  simpa [_mouse_button_event] using h

theorem mem_button_event_true {b : String} {e : Event}
    (h : e ∈ _mouse_button_event b true) : e = Event.buttonDown b := by
  simpa [_mouse_button_event] using h

theorem step_events_structure (c : KeyboardMouseController) (a : Action) :
    ∃ (ra pa rb pb : List String) (mv wl : List Event),
      (step c a).2 = emitEach ra (fun k => _key_event k false) ++
        (emitEach pa (fun k => _key_event k true) ++
        (emitEach rb (fun b => _mouse_button_event b false) ++
        (emitEach pb (fun b => _mouse_button_event b true) ++
        (mv ++ wl)))) ∧
      (∀ e ∈ mv, isMoveEvent e = true) ∧
      (∀ e ∈ wl, isWheelEvent e = true) ∧
      wl.countP isWheelEvent ≤ 1 ∧
      ((_value_from_action a.mouse_dx = 0 ∧ _value_from_action a.mouse_dy = 0)
        → mv = []) ∧
      (_value_from_action a.mouse_wheel = 0 → wl = []) := by
  by_cases hd : c.dry_run = true
  · exact ⟨[], [], [], [], [], [], by simp [step, hd, emitEach], by simp,
      by simp, by simp, fun _ => rfl, fun _ => rfl⟩
  · refine ⟨pyDiff c.pressed_keys (_extract_keys c.key_list a.keys),
      pyDiff (_extract_keys c.key_list a.keys) c.pressed_keys,
      pyDiff c.pressed_mouse_buttons
        (_extract_buttons c.mouse_button_list a.mouse_buttons),
      pyDiff (_extract_buttons c.mouse_button_list a.mouse_buttons)
        c.pressed_mouse_buttons,
      if _value_from_action a.mouse_dx ≠ 0 ∨ _value_from_action a.mouse_dy ≠ 0
        then [Event.move (_value_from_action a.mouse_dx)
          (_value_from_action a.mouse_dy)] else [],
      if _value_from_action a.mouse_wheel ≠ 0
        then [Event.wheel (_value_from_action a.mouse_wheel)] else [],
      by simp [step, hd], ?_, ?_, ?_, ?_, ?_⟩
    · split <;> intro e he <;> simp_all [isMoveEvent]
    · split <;> intro e he <;> simp_all [isWheelEvent]
    · split <;> simp [List.countP_cons, isWheelEvent]
    · rintro ⟨h1, h2⟩
      split
      · rename_i hcond
        rw [h1, h2] at hcond
        simp at hcond
      · rfl
    · intro h1
      split
      · rename_i hcond
        rw [h1] at hcond
        simp at hcond
      · rfl

theorem pairwise_phase_const {l : List Event} {n : Nat}
    (h : ∀ e ∈ l, phase e = n) :
    l.Pairwise (fun x y => phase x ≤ phase y) :=
  List.pairwise_of_forall_mem_list
    (fun a ha b hb => le_of_eq ((h a ha).trans (h b hb).symm))

theorem pairwise_phase_append {l m : List Event} {n : Nat}
    (hl : ∀ e ∈ l, phase e ≤ n) (hm : ∀ e ∈ m, n ≤ phase e)
    (pl : l.Pairwise (fun x y => phase x ≤ phase y))
    (pm : m.Pairwise (fun x y => phase x ≤ phase y)) :
    (l ++ m).Pairwise (fun x y => phase x ≤ phase y) :=
  List.pairwise_append.mpr
    ⟨pl, pm, fun a ha b hb => le_trans (hl a ha) (hm b hb)⟩

theorem phase_emit_keyUp {s : List String} {e : Event}
    (h : e ∈ emitEach s (fun k => _key_event k false)) : phase e = 0 := by
  rcases mem_emitEach.mp h with ⟨k, _, hk⟩
  rw [mem_key_event_false hk]
  rfl

theorem phase_emit_keyDown {s : List String} {e : Event}
    (h : e ∈ emitEach s (fun k => _key_event k true)) : phase e = 1 := by
  rcases mem_emitEach.mp h with ⟨k, _, hk⟩
  rw [mem_key_event_true hk]
  rfl

theorem phase_emit_buttonUp {s : List String} {e : Event}
    (h : e ∈ emitEach s (fun b => _mouse_button_event b false)) :
    phase e = 2 := by
  rcases mem_emitEach.mp h with ⟨b, _, hb⟩
  rw [mem_button_event_false hb]
  rfl

theorem phase_emit_buttonDown {s : List String} {e : Event}
    (h : e ∈ emitEach s (fun b => _mouse_button_event b true)) :
    phase e = 3 := by
  rcases mem_emitEach.mp h with ⟨b, _, hb⟩
  rw [mem_button_event_true hb]
  rfl

theorem step_phase_pairwise (c : KeyboardMouseController) (a : Action) :
    (step c a).2.Pairwise (fun x y => phase x ≤ phase y) := by
  obtain ⟨ra, pa, rb, pb, mv, wl, heq, hmv, hwl, _, _, _⟩ :=
    step_events_structure c a
  rw [heq]
  have hM : ∀ e ∈ mv, phase e = 4 := by
    intro e he
    have := hmv e he
    cases e <;> simp_all [isMoveEvent, phase]
  have hW : ∀ e ∈ wl, phase e = 5 := by
    intro e he
    have := hwl e he
    cases e <;> simp_all [isWheelEvent, phase]
  have hMW : ∀ e ∈ mv ++ wl, 4 ≤ phase e := by
    intro e he
    rcases List.mem_append.mp he with h | h
    · exact le_of_eq (hM e h).symm
    · have := hW e h
      omega
  have pMW : (mv ++ wl).Pairwise (fun x y => phase x ≤ phase y) :=
    pairwise_phase_append (n := 4) (fun e he => le_of_eq (hM e he))
      (fun e he => by have := hW e he; omega)
      (pairwise_phase_const hM) (pairwise_phase_const hW)
  have hPBMW : ∀ e ∈ emitEach pb (fun b => _mouse_button_event b true)
      ++ (mv ++ wl), 3 ≤ phase e := by
    intro e he
    rcases List.mem_append.mp he with h | h
    · exact le_of_eq (phase_emit_buttonDown h).symm
    · have := hMW e h
      omega
  have pPBMW : ((emitEach pb fun b => _mouse_button_event b true) ++
      (mv ++ wl)).Pairwise (fun x y => phase x ≤ phase y) :=
    pairwise_phase_append (n := 3)
      (fun e he => le_of_eq (phase_emit_buttonDown he))
      (fun e he => by have := hMW e he; omega)
      (pairwise_phase_const (fun e he => phase_emit_buttonDown he)) pMW
  have hRBrest : ∀ e ∈ emitEach rb (fun b => _mouse_button_event b false)
      ++ (emitEach pb (fun b => _mouse_button_event b true) ++ (mv ++ wl)),
      2 ≤ phase e := by
    intro e he
    rcases List.mem_append.mp he with h | h
    · exact le_of_eq (phase_emit_buttonUp h).symm
    · have := hPBMW e h
      omega
  have pRBrest : ((emitEach rb fun b => _mouse_button_event b false) ++
      ((emitEach pb fun b => _mouse_button_event b true) ++
      (mv ++ wl))).Pairwise (fun x y => phase x ≤ phase y) :=
    pairwise_phase_append (n := 2)
      (fun e he => le_of_eq (phase_emit_buttonUp he))
      (fun e he => by have := hPBMW e he; omega)
      (pairwise_phase_const (fun e he => phase_emit_buttonUp he)) pPBMW
  have hParest : ∀ e ∈ emitEach pa (fun k => _key_event k true)
      ++ (emitEach rb (fun b => _mouse_button_event b false) ++
      (emitEach pb (fun b => _mouse_button_event b true) ++ (mv ++ wl))),
      1 ≤ phase e := by
    intro e he
    rcases List.mem_append.mp he with h | h
    · exact le_of_eq (phase_emit_keyDown h).symm
    · have := hRBrest e h
      omega
  have pParest : ((emitEach pa fun k => _key_event k true) ++
      ((emitEach rb fun b => _mouse_button_event b false) ++
      ((emitEach pb fun b => _mouse_button_event b true) ++
      (mv ++ wl)))).Pairwise (fun x y => phase x ≤ phase y) :=
    pairwise_phase_append (n := 1)
      (fun e he => le_of_eq (phase_emit_keyDown he))
      (fun e he => by have := hRBrest e he; omega)
      (pairwise_phase_const (fun e he => phase_emit_keyDown he)) pRBrest
  exact pairwise_phase_append (n := 0)
    (fun e he => le_of_eq (phase_emit_keyUp he))
    (fun _ _ => Nat.zero_le _)
    (pairwise_phase_const (fun e he => phase_emit_keyUp he)) pParest

theorem countP_emit_zero {s : List String} {f : String → List Event}
    {p : Event → Bool} (h : ∀ k, ∀ e ∈ f k, p e = false) :
    (emitEach s f).countP p = 0 :=
  List.countP_eq_zero.mpr (fun e he => by
    rcases mem_emitEach.mp he with ⟨k, _, hk⟩
    simp [h k e hk])

theorem phase_imp_key_order {x y : Event} (h : phase x ≤ phase y) :
    ¬(isKeyEvent x = true ∧ isPress x = true ∧
      isKeyEvent y = true ∧ isRelease y = true) := by
  rintro ⟨hx1, hx2, hy1, hy2⟩
  cases x <;> cases y <;> simp_all [phase, isKeyEvent, isPress, isRelease]

theorem phase_imp_button_order {x y : Event} (h : phase x ≤ phase y) :
    ¬(isButtonEvent x = true ∧ isPress x = true ∧
      isButtonEvent y = true ∧ isRelease y = true) := by
  rintro ⟨hx1, hx2, hy1, hy2⟩
  cases x <;> cases y <;>
    simp_all [phase, isButtonEvent, isPress, isRelease]

theorem phase_imp_keys_before_buttons {x y : Event} (h : phase x ≤ phase y) :
    ¬(isButtonEvent x = true ∧ isKeyEvent y = true) := by
  rintro ⟨hx1, hy1⟩
  cases x <;> cases y <;> simp_all [phase, isButtonEvent, isKeyEvent]

theorem phase_imp_move_after {x y : Event} (h : phase x ≤ phase y) :
    ¬(isMoveEvent x = true ∧ (isPress y = true ∨ isRelease y = true)) := by
  rintro ⟨hx1, hy1⟩
  cases x <;> cases y <;> rcases hy1 with h2 | h2 <;>
    simp_all [phase, isMoveEvent, isPress, isRelease]

theorem phase_imp_wheel_last {x y : Event} (h : phase x ≤ phase y)
    (hx : isWheelEvent x = true) : isWheelEvent y = true := by
  cases x <;> cases y <;> simp_all [phase, isWheelEvent]

/-- C1 (amended): within one step call the event order is: key releases,
then key presses, then button releases, then button presses (so releases
precede presses within each device class, and all key events precede all
button events, but a button release may follow a key press), then the
move event (present only when dx or dy is nonzero), and the wheel event
(present only when wheel is nonzero) last. -/
theorem step_event_order (c : KeyboardMouseController) (a : Action) :
    ((step c a).2.Pairwise (fun x y =>
      ¬(isKeyEvent x = true ∧ isPress x = true ∧
        isKeyEvent y = true ∧ isRelease y = true))) ∧
    ((step c a).2.Pairwise (fun x y =>
      ¬(isButtonEvent x = true ∧ isPress x = true ∧
        isButtonEvent y = true ∧ isRelease y = true))) ∧
    ((step c a).2.Pairwise (fun x y =>
      ¬(isButtonEvent x = true ∧ isKeyEvent y = true))) ∧
    ((step c a).2.Pairwise (fun x y =>
      ¬(isMoveEvent x = true ∧ (isPress y = true ∨ isRelease y = true)))) ∧
    ((step c a).2.Pairwise (fun x y =>
      isWheelEvent x = true → isWheelEvent y = true)) ∧
    ((step c a).2.countP isWheelEvent ≤ 1) ∧
    ((_value_from_action a.mouse_dx = 0 ∧ _value_from_action a.mouse_dy = 0)
      → (step c a).2.countP isMoveEvent = 0) ∧
    (_value_from_action a.mouse_wheel = 0 →
      (step c a).2.countP isWheelEvent = 0) := by
  have hp := step_phase_pairwise c a
  obtain ⟨ra, pa, rb, pb, mv, wl, heq, hmv, hwl, hwc, hmv0, hwl0⟩ :=
    step_events_structure c a
  have cAw : (emitEach ra fun k => _key_event k false).countP isWheelEvent
      = 0 := countP_emit_zero (fun k e he => by
        rw [mem_key_event_false he]; rfl)
  have cBw : (emitEach pa fun k => _key_event k true).countP isWheelEvent
      = 0 := countP_emit_zero (fun k e he => by
        rw [mem_key_event_true he]; rfl)
  have cCw : (emitEach rb fun b => _mouse_button_event b false).countP
      isWheelEvent = 0 := countP_emit_zero (fun b e he => by
        rw [mem_button_event_false he]; rfl)
  have cDw : (emitEach pb fun b => _mouse_button_event b true).countP
      isWheelEvent = 0 := countP_emit_zero (fun b e he => by
        rw [mem_button_event_true he]; rfl)
  have cMw : mv.countP isWheelEvent = 0 :=
    List.countP_eq_zero.mpr (fun e he => by
      have := hmv e he
      cases e <;> simp_all [isMoveEvent, isWheelEvent])
  have cAm : (emitEach ra fun k => _key_event k false).countP isMoveEvent
      = 0 := countP_emit_zero (fun k e he => by
        rw [mem_key_event_false he]; rfl)
  have cBm : (emitEach pa fun k => _key_event k true).countP isMoveEvent
      = 0 := countP_emit_zero (fun k e he => by
        rw [mem_key_event_true he]; rfl)
  have cCm : (emitEach rb fun b => _mouse_button_event b false).countP
      isMoveEvent = 0 := countP_emit_zero (fun b e he => by
        rw [mem_button_event_false he]; rfl)
  have cDm : (emitEach pb fun b => _mouse_button_event b true).countP
      isMoveEvent = 0 := countP_emit_zero (fun b e he => by
        rw [mem_button_event_true he]; rfl)
  have cWm : wl.countP isMoveEvent = 0 :=
    List.countP_eq_zero.mpr (fun e he => by
      have := hwl e he
      cases e <;> simp_all [isMoveEvent, isWheelEvent])
  refine ⟨?_, ?_, ?_, ?_, ?_, ?_, ?_, ?_⟩
  · exact hp.imp (fun h => phase_imp_key_order h)
  · exact hp.imp (fun h => phase_imp_button_order h)
  · exact hp.imp (fun h => phase_imp_keys_before_buttons h)
  · exact hp.imp (fun h => phase_imp_move_after h)
  · exact hp.imp (fun h => phase_imp_wheel_last h)
  · rw [heq]
    simp only [List.countP_append, cAw, cBw, cCw, cDw, cMw]
    omega
  · rintro ⟨h1, h2⟩
    have hmve : mv = [] := hmv0 ⟨h1, h2⟩
    rw [heq]
    simp only [List.countP_append, cAm, cBm, cCm, cDm, cWm, hmve,
      List.countP_nil]
  · intro h1
    have hwle : wl = [] := hwl0 h1
    rw [heq]
    simp only [List.countP_append, cAw, cBw, cCw, cDw, cMw, hwle,
      List.countP_nil]

/-- C1 (counterexample to the claim as stated): with the left mouse
button held and an action that presses the key w while releasing the
button, the key press is emitted before the button release, so it is not
the case that all releases for both device classes precede any press. -/
theorem step_claimed_order_fails :
    ¬ releasesBeforePresses
      (step (step (mkController false Option.none Option.none)
        { keys := RawField.coll [], mouse_buttons := RawField.coll
            [ActionItem.str "left"], mouse_dx := ActionValue.none,
          mouse_dy := ActionValue.none, mouse_wheel := ActionValue.none }).1
        { keys := RawField.coll [ActionItem.str "w"],
          mouse_buttons := RawField.coll [], mouse_dx := ActionValue.none,
          mouse_dy := ActionValue.none,
          mouse_wheel := ActionValue.none }).2 := by
  unfold releasesBeforePresses
  decide

/-- C1 (witness): the amended ordering theorem applied at a concrete
controller and action, with its emission-condition hypotheses
discharged. -/
theorem step_event_order_witness :
    ((step (mkController false Option.none Option.none)
      { keys := RawField.coll [ActionItem.str "w"],
        mouse_buttons := RawField.coll [], mouse_dx := ActionValue.none,
        mouse_dy := ActionValue.none,
        mouse_wheel := ActionValue.none }).2.countP isMoveEvent = 0) ∧
    ((step (mkController false Option.none Option.none)
      { keys := RawField.coll [ActionItem.str "w"],
        mouse_buttons := RawField.coll [], mouse_dx := ActionValue.none,
        mouse_dy := ActionValue.none,
        mouse_wheel := ActionValue.none }).2.countP isWheelEvent = 0) ∧
    ((step (mkController false Option.none Option.none)
      { keys := RawField.coll [ActionItem.str "w"],
        mouse_buttons := RawField.coll [], mouse_dx := ActionValue.none,
        mouse_dy := ActionValue.none,
        mouse_wheel := ActionValue.none }).2.Pairwise (fun x y =>
          ¬(isButtonEvent x = true ∧ isKeyEvent y = true))) :=
  ⟨(step_event_order (mkController false Option.none Option.none)
      { keys := RawField.coll [ActionItem.str "w"],
        mouse_buttons := RawField.coll [], mouse_dx := ActionValue.none,
        mouse_dy := ActionValue.none,
        mouse_wheel := ActionValue.none }).2.2.2.2.2.2.1 ⟨rfl, rfl⟩,
   (step_event_order (mkController false Option.none Option.none)
      { keys := RawField.coll [ActionItem.str "w"],
        mouse_buttons := RawField.coll [], mouse_dx := ActionValue.none,
        mouse_dy := ActionValue.none,
        mouse_wheel := ActionValue.none }).2.2.2.2.2.2.2 rfl,
   (step_event_order (mkController false Option.none Option.none)
      { keys := RawField.coll [ActionItem.str "w"],
        mouse_buttons := RawField.coll [], mouse_dx := ActionValue.none,
        mouse_dy := ActionValue.none,
        mouse_wheel := ActionValue.none }).2.2.1⟩

/-- C3 (claim): for every held state and every action A, step(A) twice
in immediate succession emits zero press and zero release events on the
second call. -/
theorem step_idempotent_no_events (c : KeyboardMouseController)
    (a : Action) :
    ((step (step c a).1 a).2.countP (fun e => isPress e || isRelease e))
      = 0 := by
  have hpk : (step c a).1.pressed_keys = _extract_keys c.key_list a.keys :=
    rfl
  have hpb : (step c a).1.pressed_mouse_buttons
      = _extract_buttons c.mouse_button_list a.mouse_buttons := rfl
  have hkl : (step c a).1.key_list = c.key_list := rfl
  have hbl : (step c a).1.mouse_button_list = c.mouse_button_list := rfl
  show (((step (step c a).1 a)).2.countP _) = 0
  rw [step, hpk, hpb, hkl, hbl]
  simp only [pyDiff_self, emitEach_nil]
  split
  · rfl
  · simp only [List.nil_append]
    rw [List.countP_append]
    have h1 : ∀ (l : List Event), (∀ e ∈ l, isPress e = false ∧
        isRelease e = false) →
        l.countP (fun e => isPress e || isRelease e) = 0 := by
      intro l hl
      exact List.countP_eq_zero.mpr (fun e he => by
        rcases hl e he with ⟨h1, h2⟩
        simp [h1, h2])
    rw [h1, h1]
    · split <;> simp [isPress, isRelease]
    · split <;> simp [isPress, isRelease]

end Nitrogen


namespace Nitrogen

theorem runSteps_dry_agree (acts : List Action) :
    ∀ (c1 c2 : KeyboardMouseController),
    c1.key_list = c2.key_list →
    c1.mouse_button_list = c2.mouse_button_list →
    c1.pressed_keys = c2.pressed_keys →
    c1.pressed_mouse_buttons = c2.pressed_mouse_buttons →
    c1.dry_run = true →
    ((runSteps c1 acts).map
      (fun r => (r.1.pressed_keys, r.1.pressed_mouse_buttons)) =
     (runSteps c2 acts).map
      (fun r => (r.1.pressed_keys, r.1.pressed_mouse_buttons))) ∧
    (runSteps c1 acts).all (fun r => r.2.isEmpty) = true := by
  induction acts with
  | nil => exact fun c1 c2 _ _ _ _ _ => ⟨rfl, rfl⟩
  | cons a as ih =>
    intro c1 c2 hkl hbl hpk hpb hdry
    have hkl1 : (step c1 a).1.key_list = (step c2 a).1.key_list := hkl
    have hbl1 : (step c1 a).1.mouse_button_list
        = (step c2 a).1.mouse_button_list := hbl
    have hpk1 : (step c1 a).1.pressed_keys = (step c2 a).1.pressed_keys := by
      show _extract_keys c1.key_list a.keys
        = _extract_keys c2.key_list a.keys
      rw [hkl]
    have hpb1 : (step c1 a).1.pressed_mouse_buttons
        = (step c2 a).1.pressed_mouse_buttons := by
      show _extract_buttons c1.mouse_button_list a.mouse_buttons
        = _extract_buttons c2.mouse_button_list a.mouse_buttons
      rw [hbl]
    have hdry1 : (step c1 a).1.dry_run = true := hdry
    have hev : (step c1 a).2 = [] := by simp [step, hdry]
    obtain ⟨ihm, iha⟩ :=
      ih (step c1 a).1 (step c2 a).1 hkl1 hbl1 hpk1 hpb1 hdry1
    constructor
    · simp only [runSteps, List.map_cons, ihm, hpk1, hpb1]
    · simp [runSteps, hev, iha]

/-- C5 (claim): running a scripted action sequence in dry-run mode and
in normal mode yields identical trajectories of the pressed-keys and
pressed-buttons sets, and the dry-run run emits no physical events. -/
theorem dry_run_equivalence (kl mb : Option (List String))
    (acts : List Action) :
    ((runSteps (mkController true kl mb) acts).map
      (fun r => (r.1.pressed_keys, r.1.pressed_mouse_buttons)) =
     (runSteps (mkController false kl mb) acts).map
      (fun r => (r.1.pressed_keys, r.1.pressed_mouse_buttons))) ∧
    (runSteps (mkController true kl mb) acts).all
      (fun r => r.2.isEmpty) = true :=
  runSteps_dry_agree acts (mkController true kl mb)
    (mkController false kl mb) rfl rfl rfl rfl rfl

end Nitrogen

namespace Nitrogen

theorem all_pyInsert {p : String → Bool} {l : List String} {x : String}
    (hl : l.all p = true) (hx : p x = true) : (pyInsert l x).all p = true := by
  unfold pyInsert
  split
  · exact hl
  · simp_all

theorem vectorSelect_all {p : String → Bool} :
    ∀ (ns : List String) (vs : List ActionItem) (acc r : List String),
    ns.all p = true → acc.all p = true →
    vectorSelect ns vs acc = some r → r.all p = true := by
  intro ns
  induction ns with
  | nil =>
    intro vs acc r _ hacc h
    cases h
    exact hacc
  | cons n ns2 ih =>
    intro vs acc r hns hacc h
    cases vs with
    | nil =>
      cases h
      exact hacc
    | cons v vs2 =>
      unfold vectorSelect at h
      cases hpf : pyFloat v with
      | none => rw [hpf] at h; cases h
      | some x =>
        rw [hpf] at h
        refine ih vs2 _ r (by simp_all) ?_ h
        split
        · exact all_pyInsert hacc (by simp_all)
        · exact hacc

theorem vectorSelect_nodup :
    ∀ (ns : List String) (vs : List ActionItem) (acc r : List String),
    acc.Nodup → vectorSelect ns vs acc = some r → r.Nodup := by
  intro ns
  induction ns with
  | nil =>
    intro vs acc r hacc h
    cases h
    exact hacc
  | cons n ns2 ih =>
    intro vs acc r hacc h
    cases vs with
    | nil =>
      cases h
      exact hacc
    | cons v vs2 =>
      unfold vectorSelect at h
      cases hpf : pyFloat v with
      | none => rw [hpf] at h; cases h
      | some x =>
        rw [hpf] at h
        refine ih vs2 _ r ?_ h
        split
        · exact nodup_pyInsert hacc
        · exact hacc

theorem normalizeKeysGo_all :
    ∀ (items : List ActionItem) (acc : List String),
    acc.all isKeyName = true →
    (normalizeKeysGo items acc).all isKeyName = true := by
  intro items
  induction items with
  | nil => exact fun acc h => h
  | cons it rest ih =>
    intro acc hacc
    cases it with
    | str s =>
      show (normalizeKeysGo rest _).all isKeyName = true
      apply ih
      split
      · exact all_pyInsert hacc (by assumption)
      · exact hacc
    | num x => exact ih acc hacc

theorem normalizeKeysGo_nodup :
    ∀ (items : List ActionItem) (acc : List String),
    acc.Nodup → (normalizeKeysGo items acc).Nodup := by
  intro items
  induction items with
  | nil => exact fun acc h => h
  | cons it rest ih =>
    intro acc hacc
    cases it with
    | str s =>
      show (normalizeKeysGo rest _).Nodup
      apply ih
      split
      · exact nodup_pyInsert hacc
      · exact hacc
    | num x => exact ih acc hacc

theorem normalizeButtonsGo_all :
    ∀ (items : List ActionItem) (acc : List String),
    acc.all isButtonName = true →
    (normalizeButtonsGo items acc).all isButtonName = true := by
  intro items
  induction items with
  | nil => exact fun acc h => h
  | cons it rest ih =>
    intro acc hacc
    cases it with
    | str s =>
      show (normalizeButtonsGo rest _).all isButtonName = true
      apply ih
      split
      · exact all_pyInsert hacc (by assumption)
      · exact hacc
    | num x => exact ih acc hacc

theorem normalizeButtonsGo_nodup :
    ∀ (items : List ActionItem) (acc : List String),
    acc.Nodup → (normalizeButtonsGo items acc).Nodup := by
  intro items
  induction items with
  | nil => exact fun acc h => h
  | cons it rest ih =>
    intro acc hacc
    cases it with
    | str s =>
      show (normalizeButtonsGo rest _).Nodup
      apply ih
      split
      · exact nodup_pyInsert hacc
      · exact hacc
    | num x => exact ih acc hacc

theorem extract_keys_all (kl : Option (List String)) (raw : RawField)
    (hkl : ∀ l, kl = some l → l.all isKeyName = true) :
    (_extract_keys kl raw).all isKeyName = true := by
  unfold _extract_keys
  cases kl with
  | none =>
    simpa [pyTruthyList, normalizeKeysSet] using
      normalizeKeysGo_all (itemsOf raw) [] rfl
  | some l =>
    by_cases hl : l.isEmpty
    · simpa [pyTruthyList, hl, normalizeKeysSet] using
        normalizeKeysGo_all (itemsOf raw) [] rfl
    · cases raw with
      | coll items =>
        cases hv : _vector_to_names items l with
        | none =>
          simpa [pyTruthyList, hl, hv, normalizeKeysSet] using
            normalizeKeysGo_all (itemsOf (RawField.coll items)) [] rfl
        | some v =>
          have hall : v.all isKeyName = true := by
            unfold _vector_to_names at hv
            split at hv
            · exact vectorSelect_all l items [] v (hkl l rfl) rfl hv
            · cases hv
          simpa [pyTruthyList, hl, hv] using hall
      | mapping es =>
        simpa [pyTruthyList, hl, normalizeKeysSet] using
          normalizeKeysGo_all (itemsOf (RawField.mapping es)) [] rfl
      | other =>
        simpa [pyTruthyList, hl, normalizeKeysSet] using
          normalizeKeysGo_all (itemsOf RawField.other) [] rfl

theorem extract_keys_nodup (kl : Option (List String)) (raw : RawField) :
    (_extract_keys kl raw).Nodup := by
  unfold _extract_keys
  cases kl with
  | none =>
    simpa [pyTruthyList, normalizeKeysSet] using
      normalizeKeysGo_nodup (itemsOf raw) [] List.nodup_nil
  | some l =>
    by_cases hl : l.isEmpty
    · simpa [pyTruthyList, hl, normalizeKeysSet] using
        normalizeKeysGo_nodup (itemsOf raw) [] List.nodup_nil
    · cases raw with
      | coll items =>
        cases hv : _vector_to_names items l with
        | none =>
          simpa [pyTruthyList, hl, hv, normalizeKeysSet] using
            normalizeKeysGo_nodup (itemsOf (RawField.coll items)) []
              List.nodup_nil
        | some v =>
          have hnd : v.Nodup := by
            unfold _vector_to_names at hv
            split at hv
            · exact vectorSelect_nodup l items [] v List.nodup_nil hv
            · cases hv
          simpa [pyTruthyList, hl, hv] using hnd
      | mapping es =>
        simpa [pyTruthyList, hl, normalizeKeysSet] using
          normalizeKeysGo_nodup (itemsOf (RawField.mapping es)) []
            List.nodup_nil
      | other =>
        simpa [pyTruthyList, hl, normalizeKeysSet] using
          normalizeKeysGo_nodup (itemsOf RawField.other) [] List.nodup_nil

theorem extract_buttons_all (bl : Option (List String)) (raw : RawField)
    (hbl : ∀ l, bl = some l → l.all isButtonName = true) :
    (_extract_buttons bl raw).all isButtonName = true := by
  unfold _extract_buttons
  cases bl with
  | none =>
    simpa [pyTruthyList, normalizeButtonsSet] using
      normalizeButtonsGo_all (itemsOf raw) [] rfl
  | some l =>
    by_cases hl : l.isEmpty
    · simpa [pyTruthyList, hl, normalizeButtonsSet] using
        normalizeButtonsGo_all (itemsOf raw) [] rfl
    · cases raw with
      | coll items =>
        cases hv : _vector_to_names items l with
        | none =>
          simpa [pyTruthyList, hl, hv, normalizeButtonsSet] using
            normalizeButtonsGo_all (itemsOf (RawField.coll items)) [] rfl
        | some v =>
          have hall : v.all isButtonName = true := by
            unfold _vector_to_names at hv
            split at hv
            · exact vectorSelect_all l items [] v (hbl l rfl) rfl hv
            · cases hv
          simpa [pyTruthyList, hl, hv] using hall
      | mapping es =>
        simpa [pyTruthyList, hl, normalizeButtonsSet] using
          normalizeButtonsGo_all (itemsOf (RawField.mapping es)) [] rfl
      | other =>
        simpa [pyTruthyList, hl, normalizeButtonsSet] using
          normalizeButtonsGo_all (itemsOf RawField.other) [] rfl

theorem extract_buttons_nodup (bl : Option (List String)) (raw : RawField) :
    (_extract_buttons bl raw).Nodup := by
  unfold _extract_buttons
  cases bl with
  | none =>
    simpa [pyTruthyList, normalizeButtonsSet] using
      normalizeButtonsGo_nodup (itemsOf raw) [] List.nodup_nil
  | some l =>
    by_cases hl : l.isEmpty
    · simpa [pyTruthyList, hl, normalizeButtonsSet] using
        normalizeButtonsGo_nodup (itemsOf raw) [] List.nodup_nil
    · cases raw with
      | coll items =>
        cases hv : _vector_to_names items l with
        | none =>
          simpa [pyTruthyList, hl, hv, normalizeButtonsSet] using
            normalizeButtonsGo_nodup (itemsOf (RawField.coll items)) []
              List.nodup_nil
        | some v =>
          have hnd : v.Nodup := by
            unfold _vector_to_names at hv
            split at hv
            · exact vectorSelect_nodup l items [] v List.nodup_nil hv
            · cases hv
          simpa [pyTruthyList, hl, hv] using hnd
      | mapping es =>
        simpa [pyTruthyList, hl, normalizeButtonsSet] using
          normalizeButtonsGo_nodup (itemsOf (RawField.mapping es)) []
            List.nodup_nil
      | other =>
        simpa [pyTruthyList, hl, normalizeButtonsSet] using
          normalizeButtonsGo_nodup (itemsOf RawField.other) []
            List.nodup_nil

theorem extract_keys_empty (kl : Option (List String)) :
    _extract_keys kl (RawField.coll []) = [] := by
  unfold _extract_keys
  cases kl with
  | none => rfl
  | some l =>
    by_cases hl : l.isEmpty
    · simp [pyTruthyList, hl, normalizeKeysSet, itemsOf, normalizeKeysGo]
    · have hlen : ¬((0 : Nat) = l.length) := by
        cases l with
        | nil => simp at hl
        | cons x xs => simp
      simp [pyTruthyList, hl, _vector_to_names, hlen, normalizeKeysSet,
        itemsOf, normalizeKeysGo]

theorem extract_buttons_empty (bl : Option (List String)) :
    _extract_buttons bl (RawField.coll []) = [] := by
  unfold _extract_buttons
  cases bl with
  | none => rfl
  | some l =>
    by_cases hl : l.isEmpty
    · simp [pyTruthyList, hl, normalizeButtonsSet, itemsOf,
        normalizeButtonsGo]
    · have hlen : ¬((0 : Nat) = l.length) := by
        cases l with
        | nil => simp at hl
        | cons x xs => simp
      simp [pyTruthyList, hl, _vector_to_names, hlen, normalizeButtonsSet,
        itemsOf, normalizeButtonsGo]

end Nitrogen

namespace Nitrogen

theorem pyDiff_nil_left (l : List String) : pyDiff [] l = [] := rfl

theorem emitEach_map {s : List String} {f : String → List Event}
    {g : String → Event} (h : ∀ k ∈ s, f k = [g k]) :
    emitEach s f = s.map g := by
  induction s with
  | nil => rfl
  | cons k ks ih =>
    unfold emitEach at *
    simp only [List.map_cons, List.flatten_cons, h k (by simp)]
    rw [ih (fun x hx => h x (by simp [hx]))]
    rfl

theorem mk_key_list_all (d : Bool) (kl mb : Option (List String)) :
    ∀ l, (mkController d kl mb).key_list = some l →
    l.all isKeyName = true := by
  intro l h
  unfold mkController at h
  cases kl with
  | none => cases h
  | some l0 =>
    by_cases hl : l0.isEmpty
    · simp [hl] at h
    · simp [hl] at h
      subst h
      exact List.all_eq_true.mpr (fun a ha => (List.mem_filter.mp ha).2)

theorem mk_button_list_all (d : Bool) (kl mb : Option (List String)) :
    ∀ l, (mkController d kl mb).mouse_button_list = some l →
    l.all isButtonName = true := by
  intro l h
  unfold mkController at h
  cases mb with
  | none => cases h
  | some l0 =>
    by_cases hl : l0.isEmpty
    · simp [hl] at h
    · simp [hl] at h
      subst h
      exact List.all_eq_true.mpr (fun a ha => (List.mem_filter.mp ha).2)

theorem step_empty_releases (c : KeyboardMouseController)
    (hd : c.dry_run = false)
    (hk : c.pressed_keys.all isKeyName = true)
    (hknd : c.pressed_keys.Nodup)
    (hbnd : c.pressed_mouse_buttons.Nodup) :
    (∀ k, (step c emptyAction).2.count (Event.keyUp k)
      = if k ∈ c.pressed_keys then 1 else 0) ∧
    (∀ b, (step c emptyAction).2.count (Event.buttonUp b)
      = if b ∈ c.pressed_mouse_buttons then 1 else 0) ∧
    (step c emptyAction).2.length
      = c.pressed_keys.length + c.pressed_mouse_buttons.length ∧
    (step c emptyAction).1.pressed_keys = [] ∧
    (step c emptyAction).1.pressed_mouse_buttons = [] := by
  have hke : _extract_keys c.key_list emptyAction.keys = [] :=
    extract_keys_empty _
  have hbe : _extract_buttons c.mouse_button_list emptyAction.mouse_buttons
      = [] := extract_buttons_empty _
  have hmapk : emitEach c.pressed_keys (fun k => _key_event k false)
      = c.pressed_keys.map Event.keyUp := by
    refine emitEach_map (fun k hkm => ?_)
    unfold _key_event
    rw [List.all_eq_true.mp hk k hkm]
    rfl
  have hmapb : emitEach c.pressed_mouse_buttons
      (fun b => _mouse_button_event b false)
      = c.pressed_mouse_buttons.map Event.buttonUp :=
    emitEach_map (fun b _ => rfl)
  have hev : (step c emptyAction).2
      = c.pressed_keys.map Event.keyUp
        ++ c.pressed_mouse_buttons.map Event.buttonUp := by
    show (if c.dry_run then [] else _) = _
    rw [hd, hke, hbe]
    simp only [Bool.false_eq_true, if_false, pyDiff_nil, pyDiff_nil_left,
      emitEach_nil, hmapk, hmapb]
    simp [emptyAction, _value_from_action]
  refine ⟨?_, ?_, ?_, ?_, ?_⟩
  · intro k
    rw [hev, List.count_append]
    have h1 : (c.pressed_keys.map Event.keyUp).count (Event.keyUp k)
        = c.pressed_keys.count k :=
      List.count_map_of_injective _ _ (fun a b hab => by injection hab) k
    have h2 : (c.pressed_mouse_buttons.map Event.buttonUp).count
        (Event.keyUp k) = 0 :=
      List.count_eq_zero_of_not_mem (by simp)
    rw [h1, h2, Nat.add_zero]
    by_cases hmem : k ∈ c.pressed_keys
    · simp [hmem, List.count_eq_one_of_mem hknd hmem]
    · simp [hmem, List.count_eq_zero_of_not_mem hmem]
  · intro b
    rw [hev, List.count_append]
    have h1 : (c.pressed_mouse_buttons.map Event.buttonUp).count
        (Event.buttonUp b) = c.pressed_mouse_buttons.count b :=
      List.count_map_of_injective _ _ (fun a b2 hab => by injection hab) b
    have h2 : (c.pressed_keys.map Event.keyUp).count (Event.buttonUp b)
        = 0 :=
      List.count_eq_zero_of_not_mem (by simp)
    rw [h1, h2, Nat.zero_add]
    by_cases hmem : b ∈ c.pressed_mouse_buttons
    · simp [hmem, List.count_eq_one_of_mem hbnd hmem]
    · simp [hmem, List.count_eq_zero_of_not_mem hmem]
  · rw [hev]
    simp
  · show _extract_keys c.key_list emptyAction.keys = []
    exact hke
  · show _extract_buttons c.mouse_button_list emptyAction.mouse_buttons = []
    exact hbe

end Nitrogen

namespace Nitrogen

/-- C4 (claim): from an empty held state (a freshly constructed
controller in normal mode), step(A) followed by step of an empty action
emits on the second call exactly one release event per key and per
button that the first call pressed, and leaves both pressed sets empty;
in particular, with key whitelist w a s d, step with the vector 1 0 0 1
presses exactly w and d, and a following all-zero step emits exactly the
two releases for w and d and empties the pressed-key set. -/
theorem release_completeness (kl mb : Option (List String)) (a : Action) :
    (∀ k, (step (step (mkController false kl mb) a).1 emptyAction).2.count
        (Event.keyUp k)
      = if k ∈ (step (mkController false kl mb) a).1.pressed_keys then 1
        else 0) ∧
    (∀ b, (step (step (mkController false kl mb) a).1 emptyAction).2.count
        (Event.buttonUp b)
      = if b ∈ (step (mkController false kl mb) a).1.pressed_mouse_buttons
        then 1 else 0) ∧
    (step (step (mkController false kl mb) a).1 emptyAction).2.length
      = (step (mkController false kl mb) a).1.pressed_keys.length
        + (step (mkController false kl mb) a).1.pressed_mouse_buttons.length
        ∧
    (step (step (mkController false kl mb) a).1 emptyAction).1.pressed_keys
      = [] ∧
    (step (step (mkController false kl mb) a).1
      emptyAction).1.pressed_mouse_buttons = [] ∧
    ((step (mkController false (some ["w", "a", "s", "d"]) Option.none)
      { keys := RawField.coll
          [ActionItem.num 1, ActionItem.num 0, ActionItem.num 0,
           ActionItem.num 1],
        mouse_buttons := RawField.coll [], mouse_dx := ActionValue.none,
        mouse_dy := ActionValue.none,
        mouse_wheel := ActionValue.none }).1.pressed_keys = ["w", "d"]) ∧
    ((step (step (mkController false (some ["w", "a", "s", "d"])
        Option.none)
      { keys := RawField.coll
          [ActionItem.num 1, ActionItem.num 0, ActionItem.num 0,
           ActionItem.num 1],
        mouse_buttons := RawField.coll [], mouse_dx := ActionValue.none,
        mouse_dy := ActionValue.none, mouse_wheel := ActionValue.none }).1
      { keys := RawField.coll
          [ActionItem.num 0, ActionItem.num 0, ActionItem.num 0,
           ActionItem.num 0],
        mouse_buttons := RawField.coll [], mouse_dx := ActionValue.none,
        mouse_dy := ActionValue.none, mouse_wheel := ActionValue.none }).2
      = [Event.keyUp "w", Event.keyUp "d"]) ∧
    ((step (step (mkController false (some ["w", "a", "s", "d"])
        Option.none)
      { keys := RawField.coll
          [ActionItem.num 1, ActionItem.num 0, ActionItem.num 0,
           ActionItem.num 1],
        mouse_buttons := RawField.coll [], mouse_dx := ActionValue.none,
        mouse_dy := ActionValue.none, mouse_wheel := ActionValue.none }).1
      { keys := RawField.coll
          [ActionItem.num 0, ActionItem.num 0, ActionItem.num 0,
           ActionItem.num 0],
        mouse_buttons := RawField.coll [], mouse_dx := ActionValue.none,
        mouse_dy := ActionValue.none,
        mouse_wheel := ActionValue.none }).1.pressed_keys = []) := by
  have hc : (step (mkController false kl mb) a).1.dry_run = false := rfl
  have hk : (step (mkController false kl mb) a).1.pressed_keys.all
      isKeyName = true :=
    extract_keys_all _ _ (mk_key_list_all false kl mb)
  have hknd : (step (mkController false kl mb) a).1.pressed_keys.Nodup :=
    extract_keys_nodup _ _
  have hbnd : (step (mkController false kl mb)
      a).1.pressed_mouse_buttons.Nodup :=
    extract_buttons_nodup _ _
  obtain ⟨h1, h2, h3, h4, h5⟩ :=
    step_empty_releases (step (mkController false kl mb) a).1 hc hk hknd
      hbnd
  exact ⟨h1, h2, h3, h4, h5, by decide, by decide, by decide⟩

end Nitrogen

namespace Nitrogen

theorem vectorSelect_num :
    ∀ (ns : List String) (vs : List ActionItem) (acc : List String),
    vs.all isNumItem = true →
    vectorSelect ns vs acc = some (positionalDecodeGo (ns.zip vs) acc) := by
  intro ns
  induction ns with
  | nil => intro vs acc _; cases vs <;> rfl
  | cons n ns2 ih =>
    intro vs acc hnum
    cases vs with
    | nil => rfl
    | cons v vs2 =>
      cases v with
      | str s => simp [isNumItem] at hnum
      | num x =>
        show vectorSelect (n :: ns2) (ActionItem.num x :: vs2) acc = _
        unfold vectorSelect
        show vectorSelect ns2 vs2 _ = _
        rw [ih vs2 _ (by simp_all)]
        rfl

theorem normalizeKeysGo_num :
    ∀ (vs : List ActionItem) (acc : List String),
    vs.all isNumItem = true → normalizeKeysGo vs acc = acc := by
  intro vs
  induction vs with
  | nil => intro acc _; rfl
  | cons v vs2 ih =>
    intro acc hnum
    cases v with
    | str s => simp [isNumItem] at hnum
    | num x => exact ih acc (by simp_all)

/-- C6 (claim): against a configured key whitelist, a numeric vector of
exactly the whitelist length decodes positionally (index i selected iff
its value is strictly positive); a numeric vector of any other length
yields the empty selection, not an error. -/
theorem vector_decoding (kl : List String) (items : List ActionItem)
    (hnum : items.all isNumItem = true) :
    (items.length = kl.length →
      _extract_keys (some kl) (RawField.coll items)
        = positionalDecode kl items) ∧
    (items.length ≠ kl.length →
      _extract_keys (some kl) (RawField.coll items) = []) := by
  constructor
  · intro hlen
    unfold _extract_keys
    by_cases hkl : kl.isEmpty
    · have hkle : kl = [] := List.isEmpty_iff.mp hkl
      subst hkle
      have hie : items = [] := List.length_eq_zero.mp (by simpa using hlen)
      subst hie
      simp [pyTruthyList, normalizeKeysSet, itemsOf, normalizeKeysGo,
        positionalDecode, positionalDecodeGo]
    · have hv : _vector_to_names items kl
          = some (positionalDecode kl items) := by
        unfold _vector_to_names
        rw [if_pos hlen]
        exact vectorSelect_num kl items [] hnum
      simp [pyTruthyList, hkl, hv]
  · intro hlen
    unfold _extract_keys
    by_cases hkl : kl.isEmpty
    · have h0 : normalizeKeysGo items [] = [] :=
        normalizeKeysGo_num items [] hnum
      simpa [pyTruthyList, hkl, normalizeKeysSet, itemsOf] using h0
    · have hv : _vector_to_names items kl = Option.none := by
        unfold _vector_to_names
        rw [if_neg hlen]
      have h0 : normalizeKeysGo items [] = [] :=
        normalizeKeysGo_num items [] hnum
      simpa [pyTruthyList, hkl, hv, normalizeKeysSet, itemsOf] using h0

/-- C6 (witness): the decoding theorem applied to the whitelist w a s d
with the vector 1 0 0 1 (selecting w and d) and with a length-3 vector
(empty selection). -/
theorem vector_decoding_witness :
    _extract_keys (some ["w", "a", "s", "d"]) (RawField.coll
      [ActionItem.num 1, ActionItem.num 0, ActionItem.num 0,
       ActionItem.num 1]) = ["w", "d"] ∧
    _extract_keys (some ["w", "a", "s", "d"]) (RawField.coll
      [ActionItem.num 1, ActionItem.num 0, ActionItem.num 0]) = [] := by
  constructor
  · have h := (vector_decoding ["w", "a", "s", "d"]
      [ActionItem.num 1, ActionItem.num 0, ActionItem.num 0,
       ActionItem.num 1] (by decide)).1 (by decide)
    rw [h]
    decide
  · exact (vector_decoding ["w", "a", "s", "d"]
      [ActionItem.num 1, ActionItem.num 0, ActionItem.num 0]
      (by decide)).2 (by decide)

end Nitrogen

namespace Nitrogen

theorem handle_message_eq (h : RawMouseHook) (m : HookMsg) :
    _handle_message h m =
      { dx := h.dx + (msgDelta h.last_abs m).1,
        dy := h.dy + (msgDelta h.last_abs m).2.1,
        wheel := h.wheel + (msgDelta h.last_abs m).2.2,
        last_abs := msgAbs h.last_abs m } := by
  cases m with
  | rawInput e => rfl
  | mouseWheel w => simp [_handle_message, msgDelta, msgAbs]
  | other => simp [_handle_message, msgDelta, msgAbs]

theorem processMsgs_acc :
    ∀ (ms : List HookMsg) (h : RawMouseHook),
    (processMsgs h ms).dx = h.dx + (sumDeltas h.last_abs ms).1 ∧
    (processMsgs h ms).dy = h.dy + (sumDeltas h.last_abs ms).2.1 ∧
    (processMsgs h ms).wheel = h.wheel + (sumDeltas h.last_abs ms).2.2 := by
  intro ms
  induction ms with
  | nil => intro h; simp [processMsgs, sumDeltas]
  | cons m ms2 ih =>
    intro h
    obtain ⟨i1, i2, i3⟩ := ih (_handle_message h m)
    have e0 : processMsgs h (m :: ms2)
        = processMsgs (_handle_message h m) ms2 := rfl
    refine ⟨?_, ?_, ?_⟩
    · rw [e0, i1, handle_message_eq h m]
      simp only [sumDeltas]
      omega
    · rw [e0, i2, handle_message_eq h m]
      simp only [sumDeltas]
      omega
    · rw [e0, i3, handle_message_eq h m]
      simp only [sumDeltas]
      omega

/-- C7 (claim): starting from the state right after a poll, processing
any sequence of raw-motion and wheel messages accumulates exactly the
componentwise sum of their contributed deltas, which a single poll
returns while resetting the accumulator, so an immediately following
poll returns zeros; a poll with nothing accumulated returns zeros. -/
theorem raw_accumulator_poll (h : RawMouseHook) (ms : List HookMsg) :
    ((poll (processMsgs (poll h).2 ms)).1
      = sumDeltas (poll h).2.last_abs ms) ∧
    ((poll ((poll (processMsgs (poll h).2 ms)).2)).1 = (0, 0, 0)) ∧
    ((poll ((poll h).2)).1 = (0, 0, 0)) := by
  obtain ⟨a1, a2, a3⟩ := processMsgs_acc ms (poll h).2
  refine ⟨?_, rfl, rfl⟩
  show ((processMsgs (poll h).2 ms).dx, (processMsgs (poll h).2 ms).dy,
    (processMsgs (poll h).2 ms).wheel) = _
  rw [a1, a2, a3]
  show ((0 : Int) + _, (0 : Int) + _, (0 : Int) + _) = _
  simp

/-- C2 (evaluation of the code at the failing input): for the first
absolute-mode event after construction, with reported coordinates
(100, 200), the code adds the raw absolute coordinates (100, 200) to the
accumulator, not (0, 0); the coordinates are stored as the new absolute
sample. -/
theorem first_absolute_event_delta :
    ((_handle_raw_input initHook
      { usFlags := MOUSE_MOVE_ABSOLUTE, usButtonFlags := 0,
        usButtonData := 0, lLastX := 100, lLastY := 200 }).dx,
     (_handle_raw_input initHook
      { usFlags := MOUSE_MOVE_ABSOLUTE, usButtonFlags := 0,
        usButtonData := 0, lLastX := 100, lLastY := 200 }).dy)
      = ((100 : Int), (200 : Int)) ∧
    (_handle_raw_input initHook
      { usFlags := MOUSE_MOVE_ABSOLUTE, usButtonFlags := 0,
        usButtonData := 0, lLastX := 100, lLastY := 200 }).last_abs
      = some (100, 200) ∧
    ¬(((_handle_raw_input initHook
      { usFlags := MOUSE_MOVE_ABSOLUTE, usButtonFlags := 0,
        usButtonData := 0, lLastX := 100, lLastY := 200 }).dx,
       (_handle_raw_input initHook
      { usFlags := MOUSE_MOVE_ABSOLUTE, usButtonFlags := 0,
        usButtonData := 0, lLastX := 100, lLastY := 200 }).dy)
      = ((0 : Int), (0 : Int))) := by
  decide

end Nitrogen

namespace Nitrogen

theorem runOps_canonical :
    ∀ (ops : List CtrlOp) (c : KeyboardMouseController),
    (∀ l, c.key_list = some l → l.all isKeyName = true) →
    (∀ l, c.mouse_button_list = some l → l.all isButtonName = true) →
    c.pressed_keys.all isKeyName = true →
    c.pressed_mouse_buttons.all isButtonName = true →
    (runOps c ops).pressed_keys.all isKeyName = true ∧
    (runOps c ops).pressed_mouse_buttons.all isButtonName = true := by
  intro ops
  induction ops with
  | nil => exact fun c _ _ h3 h4 => ⟨h3, h4⟩
  | cons op rest ih =>
    intro c h1 h2 h3 h4
    cases op with
    | doStep a =>
      exact ih (step c a).1 h1 h2 (extract_keys_all _ _ h1)
        (extract_buttons_all _ _ h2)
    | doReset => exact ih (reset c).1 h1 h2 rfl rfl

theorem initKeysGo_all :
    ∀ (ks acc : List String), acc.all isKeyName = true →
    (initKeysGo ks acc).all isKeyName = true := by
  intro ks
  induction ks with
  | nil => exact fun acc h => h
  | cons k ks2 ih =>
    intro acc hacc
    show (initKeysGo ks2 _).all isKeyName = true
    apply ih
    split
    · rename_i hcond
      simp [List.all_append, hacc, hcond.1]
    · exact hacc

theorem initButtonsGo_all :
    ∀ (bs acc : List String), acc.all isButtonVkName = true →
    (initButtonsGo bs acc).all isButtonVkName = true := by
  intro bs
  induction bs with
  | nil => exact fun acc h => h
  | cons b bs2 ih =>
    intro acc hacc
    show (initButtonsGo bs2 _).all isButtonVkName = true
    apply ih
    split
    · rename_i hcond
      simp [List.all_append, hacc, hcond.1]
    · exact hacc

theorem sample_state_fields (s : KeyboardMouseState) (env : Env) :
    (sample s env).1.keys = s.keys ∧
    (sample s env).1.mouse_buttons = s.mouse_buttons ∧
    (sample s env).1.raw_mouse = s.raw_mouse := by
  unfold sample
  split
  · split
    · exact ⟨rfl, rfl, rfl⟩
    · unfold _cursor_delta
      split <;> exact ⟨rfl, rfl, rfl⟩
  · unfold _cursor_delta
    split <;> exact ⟨rfl, rfl, rfl⟩

theorem runSamples_canonical :
    ∀ (envs : List Env) (s : KeyboardMouseState),
    s.keys.all isKeyName = true →
    s.mouse_buttons.all isButtonVkName = true →
    ((runSamples s envs).2.all
      (fun sn => sn.keys.all isKeyName
        && sn.mouse_buttons.all isButtonVkName)) = true := by
  intro envs
  induction envs with
  | nil => exact fun s _ _ => rfl
  | cons e es ih =>
    intro s h1 h2
    have hsnapk : (sample s e).2.keys.all isKeyName = true :=
      List.all_eq_true.mpr (fun a ha =>
        List.all_eq_true.mp h1 a (List.mem_of_mem_filter ha))
    have hsnapb : (sample s e).2.mouse_buttons.all isButtonVkName = true :=
      List.all_eq_true.mpr (fun a ha =>
        List.all_eq_true.mp h2 a (List.mem_of_mem_filter ha))
    obtain ⟨hks, hbs, _⟩ := sample_state_fields s e
    show ((sample s e).2 :: (runSamples (sample s e).1 es).2).all _ = true
    simp only [List.all_cons, hsnapk, hsnapb, Bool.and_true, Bool.true_and]
    exact ih (sample s e).1 (hks ▸ h1) (hbs ▸ h2)

/-- C8 (claim): after any sequence of step and reset calls on a
constructed controller, every name in the pressed-keys set is in VK_CODE
and every name in the pressed-buttons set is in MOUSE_BUTTON_FLAGS; and
in every snapshot produced by sampling a constructed state, every key
name is in VK_CODE and every button name is in MOUSE_BUTTON_VK —
unrecognized names are dropped during extraction and construction, never
stored. -/
theorem canonical_names (dr : Bool) (kl mb : Option (List String))
    (ops : List CtrlOp) (ks bs : List String) (rawm : Bool)
    (envs : List Env) :
    (runOps (mkController dr kl mb) ops).pressed_keys.all isKeyName
      = true ∧
    (runOps (mkController dr kl mb) ops).pressed_mouse_buttons.all
      isButtonName = true ∧
    ((runSamples (initState ks bs rawm) envs).2.all
      (fun sn => sn.keys.all isKeyName
        && sn.mouse_buttons.all isButtonVkName)) = true := by
  obtain ⟨h1, h2⟩ := runOps_canonical ops (mkController dr kl mb)
    (mk_key_list_all dr kl mb) (mk_button_list_all dr kl mb) rfl rfl
  exact ⟨h1, h2, runSamples_canonical envs (initState ks bs rawm)
    (initKeysGo_all ks [] rfl) (initButtonsGo_all bs [] rfl)⟩

end Nitrogen

namespace Nitrogen

theorem sample_no_handle (s : KeyboardMouseState) (env : Env)
    (h : s.raw_mouse = false) :
    (sample s env).2.mouse_wheel = 0 ∧
    (sample s env).2.mouse_dx = (match s.prev_pos with
      | Option.none => 0
      | some p => env.cursorPos.1 - p.1) ∧
    (sample s env).2.mouse_dy = (match s.prev_pos with
      | Option.none => 0
      | some p => env.cursorPos.2 - p.2) ∧
    (sample s env).1.prev_pos = some env.cursorPos := by
  cases hp : s.prev_pos with
  | none => simp [sample, _cursor_delta, h, hp]
  | some p => simp [sample, _cursor_delta, h, hp]

theorem sample_poll_fail (s : KeyboardMouseState) (env : Env)
    (h : s.raw_mouse = true) (hp : env.pollResult = Option.none) :
    (sample s env).2.mouse_wheel = 0 ∧
    (sample s env).2.mouse_dx = (match s.prev_pos with
      | Option.none => 0
      | some p => env.cursorPos.1 - p.1) ∧
    (sample s env).2.mouse_dy = (match s.prev_pos with
      | Option.none => 0
      | some p => env.cursorPos.2 - p.2) ∧
    (sample s env).1.prev_pos = some env.cursorPos := by
  cases hq : s.prev_pos with
  | none => simp [sample, _cursor_delta, h, hp, hq]
  | some p => simp [sample, _cursor_delta, h, hp, hq]

theorem sample_poll_ok (s : KeyboardMouseState) (env : Env)
    (r : Int × Int × Int) (h : s.raw_mouse = true)
    (hp : env.pollResult = some r) :
    (sample s env).1 = s ∧
    (sample s env).2.mouse_dx = r.1 ∧
    (sample s env).2.mouse_dy = r.2.1 ∧
    (sample s env).2.mouse_wheel = r.2.2 := by
  simp [sample, h, hp]

end Nitrogen

namespace Nitrogen

/-- C9 (claim): with no capture handle, sample always uses
cursor-position differencing with wheel 0, and the first-ever sample of
a constructed state reports delta (0, 0) and wheel 0; with a capture
handle whose poll raises, that single sample falls back to cursor
differencing, and a next sample whose poll succeeds uses the polled
triple again — the fallback is transient, never sticky. -/
theorem sampler_fallback (s : KeyboardMouseState) (env env2 : Env)
    (ks bs : List String) (r : Int × Int × Int) :
    (s.raw_mouse = false →
      ((sample s env).2.mouse_wheel = 0 ∧
       (sample s env).2.mouse_dx = (match s.prev_pos with
         | Option.none => 0
         | some p => env.cursorPos.1 - p.1) ∧
       (sample s env).2.mouse_dy = (match s.prev_pos with
         | Option.none => 0
         | some p => env.cursorPos.2 - p.2) ∧
       (sample s env).1.prev_pos = some env.cursorPos)) ∧
    ((sample (initState ks bs false) env).2.mouse_dx = 0 ∧
     (sample (initState ks bs false) env).2.mouse_dy = 0 ∧
     (sample (initState ks bs false) env).2.mouse_wheel = 0) ∧
    (s.raw_mouse = true → env.pollResult = Option.none →
      ((sample s env).2.mouse_wheel = 0 ∧
       (sample s env).2.mouse_dx = (match s.prev_pos with
         | Option.none => 0
         | some p => env.cursorPos.1 - p.1) ∧
       (sample s env).2.mouse_dy = (match s.prev_pos with
         | Option.none => 0
         | some p => env.cursorPos.2 - p.2)) ∧
      (env2.pollResult = some r →
        ((sample (sample s env).1 env2).2.mouse_dx = r.1 ∧
         (sample (sample s env).1 env2).2.mouse_dy = r.2.1 ∧
         (sample (sample s env).1 env2).2.mouse_wheel = r.2.2))) := by
  refine ⟨?_, ?_, ?_⟩
  · intro h
    exact sample_no_handle s env h
  · have h0 : (initState ks bs false).raw_mouse = false := rfl
    obtain ⟨hw, hdx, hdy, _⟩ := sample_no_handle (initState ks bs false)
      env h0
    have hpp : (initState ks bs false).prev_pos = Option.none := rfl
    rw [hpp] at hdx hdy
    exact ⟨hdx, hdy, hw⟩
  · intro h hp
    obtain ⟨hw, hdx, hdy, _⟩ := sample_poll_fail s env h hp
    refine ⟨⟨hw, hdx, hdy⟩, ?_⟩
    intro hp2
    have hraw : (sample s env).1.raw_mouse = true :=
      ((sample_state_fields s env).2.2).trans h
    obtain ⟨_, g1, g2, g3⟩ := sample_poll_ok (sample s env).1 env2 r hraw
      hp2
    exact ⟨g1, g2, g3⟩

/-- C9 (witness): the fallback theorem applied at concrete states and
environments: a no-handle sample differences against the stored cursor
position with wheel 0; a raising poll falls back to cursor differencing
for that sample; the immediately following successful poll is used. -/
theorem sampler_fallback_witness :
    ((sample sampFixCur envFail).2.mouse_dx = 5 ∧
     (sample sampFixCur envFail).2.mouse_wheel = 0) ∧
    ((sample (initState ["w"] ["left"] false) envFail).2.mouse_dx = 0 ∧
     (sample (initState ["w"] ["left"] false) envFail).2.mouse_wheel = 0) ∧
    ((sample sampFixRaw envFail).2.mouse_dx = 5 ∧
     (sample sampFixRaw envFail).2.mouse_wheel = 0) ∧
    ((sample (sample sampFixRaw envFail).1 envOk).2.mouse_dx = 1 ∧
     (sample (sample sampFixRaw envFail).1 envOk).2.mouse_wheel = 3) := by
  obtain ⟨h1, h2, h3⟩ :=
    sampler_fallback sampFixCur envFail envOk ["w"] ["left"] (1, 2, 3)
  obtain ⟨g1, g2, g3⟩ :=
    sampler_fallback sampFixRaw envFail envOk ["w"] ["left"] (1, 2, 3)
  obtain ⟨w1, dx1, dy1, _⟩ := h1 rfl
  obtain ⟨⟨w3, dx3, dy3⟩, hnext⟩ := g3 rfl rfl
  obtain ⟨n1, n2, n3⟩ := hnext rfl
  refine ⟨⟨?_, w1⟩, ⟨h2.1, h2.2.2⟩, ⟨?_, w3⟩, ⟨n1, n3⟩⟩
  · rw [dx1]
    decide
  · rw [dx3]
    decide

end Nitrogen

namespace Nitrogen

theorem runSamples_poll_ok_state :
    ∀ (envs : List Env) (s : KeyboardMouseState),
    s.raw_mouse = true →
    (∀ e ∈ envs, (e.pollResult).isSome = true) →
    (runSamples s envs).1 = s := by
  intro envs
  induction envs with
  | nil => exact fun s _ _ => rfl
  | cons e es ih =>
    intro s hr hall
    obtain ⟨r, hr2⟩ := Option.isSome_iff_exists.mp (hall e (by simp))
    have hs1 : (sample s e).1 = s :=
      (sample_poll_ok s e r hr hr2).1
    show (runSamples (sample s e).1 es).1 = s
    rw [hs1]
    exact ih s hr (fun x hx => hall x (by simp [hx]))

/-- C10 (claim): with a capture handle configured, the stored previous
cursor position is updated only on samples whose poll raises; a failing
sample differences against the position recorded at the most recent
previously-failing sample, and is (0, 0) when no earlier sample ever
used the fallback (in particular after any run of purely successful
polls from construction). -/
theorem sampler_prev_pos (s : KeyboardMouseState) (env envf : Env)
    (r : Int × Int × Int) (ks bs : List String) (envs : List Env) :
    (s.raw_mouse = true → env.pollResult = some r →
      (sample s env).1.prev_pos = s.prev_pos) ∧
    (s.raw_mouse = true → envf.pollResult = Option.none →
      ((sample s envf).1.prev_pos = some envf.cursorPos ∧
       (sample s envf).2.mouse_dx = (match s.prev_pos with
         | Option.none => 0
         | some p => envf.cursorPos.1 - p.1) ∧
       (sample s envf).2.mouse_dy = (match s.prev_pos with
         | Option.none => 0
         | some p => envf.cursorPos.2 - p.2))) ∧
    ((∀ e ∈ envs, (e.pollResult).isSome = true) →
      envf.pollResult = Option.none →
      ((sample ((runSamples (initState ks bs true) envs).1)
          envf).2.mouse_dx = 0 ∧
       (sample ((runSamples (initState ks bs true) envs).1)
          envf).2.mouse_dy = 0)) := by
  refine ⟨?_, ?_, ?_⟩
  · intro h hp
    rw [(sample_poll_ok s env r h hp).1]
  · intro h hp
    obtain ⟨_, hdx, hdy, hpp⟩ := sample_poll_fail s envf h hp
    exact ⟨hpp, hdx, hdy⟩
  · intro hall hp
    have hrun : (runSamples (initState ks bs true) envs).1
        = initState ks bs true :=
      runSamples_poll_ok_state envs (initState ks bs true) rfl hall
    rw [hrun]
    obtain ⟨_, hdx, hdy, _⟩ :=
      sample_poll_fail (initState ks bs true) envf rfl hp
    have hpp : (initState ks bs true).prev_pos = Option.none := rfl
    rw [hpp] at hdx hdy
    exact ⟨hdx, hdy⟩

/-- C10 (witness): the previous-position theorem applied at concrete
states and environments: a successful poll leaves the stored position
untouched; a failing poll stores the current cursor position and
differences against the stored one; after a run of only successful
polls from construction, a failing sample reports (0, 0). -/
theorem sampler_prev_pos_witness :
    ((sample sampFixRaw envOk).1.prev_pos = some (5, 7)) ∧
    ((sample sampFixRaw envFail).1.prev_pos = some (10, 20) ∧
     (sample sampFixRaw envFail).2.mouse_dx = 5) ∧
    ((sample ((runSamples (initState ["w"] ["left"] true) [envOk]).1)
        envFail).2.mouse_dx = 0 ∧
     (sample ((runSamples (initState ["w"] ["left"] true) [envOk]).1)
        envFail).2.mouse_dy = 0) := by
  obtain ⟨h1, h2, h3⟩ := sampler_prev_pos sampFixRaw envOk envFail
    (1, 2, 3) ["w"] ["left"] [envOk]
  obtain ⟨p1, p2, p3⟩ := h2 rfl rfl
  refine ⟨?_, ⟨?_, ?_⟩, h3 (by decide) rfl⟩
  · rw [h1 rfl rfl]
    decide
  · rw [p1]
    decide
  · rw [p2]
    decide

end Nitrogen
